import Mathlib

/-!
# Pinterest clone backend: request handlers over a document store

A shallow embedding of `src/index.js` and `src/schemas/schema.js`.

* Documents are records, collections are lists in the store's natural order.
* Every awaited call of a handler (a store call or a hashing call) may reject; the
  rejections of one run are given by a schedule indexed by the position of the awaited call
  in the handler's text.
* A handler maps a request and a store to the response it sends (`none` when the handler
  finishes without sending anything) and the store it leaves behind.
* Where a handler hands the id of a request to the store or to a stored array, the id
  stands for the document id it denotes. The category handler also compares the text of the
  request id with `_id.toString()`, so it takes the id as the string the request carries,
  together with the driver's cast of such a string and its `toString`.
* String paths of a request body are strings (or absent, where the handler or the schema
  deals with that). The tags of a create-pin request are the JSON values of the request
  (strings, numbers, booleans), which the schema casts to strings when the pin is built.
-/

set_option autoImplicit false

namespace Pinterest

/-! ## Data model (`src/schemas/schema.js`) -/

/-- Document identifiers (`mongoose.Types.ObjectId`). -/
abbrev ObjectId := Nat

/-- Documents of the `comments` collection. -/
structure Comment where
  _id : ObjectId
  pinId : Option ObjectId
  username : String
  commentText : String
deriving DecidableEq, Repr

/-- Documents of the `pins` collection. -/
structure Pin where
  _id : ObjectId
  title : String
  link : Option String
  img_source : String
  description : Option String
  extras : Option String
  tags : List String
  allow_comment : Bool
  comments : List ObjectId
  likes : List ObjectId
deriving DecidableEq, Repr

/-- Documents of the `users` collection. -/
structure User where
  _id : ObjectId
  fname : String
  email : String
  password : String
  dob : String
  savedPins : List ObjectId
deriving DecidableEq, Repr

/-- The three collections of the persistent store. -/
structure Store where
  users : List User
  pins : List Pin
  comments : List Comment
deriving DecidableEq, Repr

/-- An error thrown by an awaited call: its `code` (when it has one) and its `message`. -/
structure StoreError where
  code : Option Nat
  message : String
deriving DecidableEq, Repr

/-- The rejections of one run: `faults i` is the error with which the awaited call number `i`
of the handler rejects, `none` when that call goes through. -/
abbrev Faults := Nat → Option StoreError

/-- The run in which no awaited call rejects. -/
def noFaults : Faults := fun _ => none

/-! ## Store operations -/

namespace PinModel

/-- The query `PinModel.findById(id)`: the stored pin with that id, if any. -/
def findById (s : Store) (id : ObjectId) : Option Pin :=
  s.pins.find? (fun q => q._id == id)

/-- One `updateOne` by id: the first document with the id of `p` becomes `p`. -/
def updateOne : List Pin → Pin → List Pin
  | [], _ => []
  | q :: qs, p => if q._id = p._id then p :: qs else q :: updateOne qs p

/-- The call `pin.save()` on a pin that was read from the store. -/
def save (s : Store) (p : Pin) : Store :=
  { s with pins := updateOne s.pins p }

end PinModel

namespace UserModel

/-- The query `UserModel.findById(id)`. -/
def findById (s : Store) (id : ObjectId) : Option User :=
  s.users.find? (fun u => u._id == id)

/-- The query `UserModel.findOne({ email })`: the first stored user with that email. -/
def findOne (s : Store) (email : String) : Option User :=
  s.users.find? (fun u => u.email == email)

/-- One `updateOne` by id: the first document with the id of `u` becomes `u`. -/
def updateOne : List User → User → List User
  | [], _ => []
  | v :: vs, u => if v._id = u._id then u :: vs else v :: updateOne vs u

/-- The call `user.save()` on a user that was read from the store. -/
def save (s : Store) (u : User) : Store :=
  { s with users := updateOne s.users u }

end UserModel

namespace CommentModel

/-- The lookup of one comment reference, as `populate` does it. -/
def findById (s : Store) (id : ObjectId) : Option Comment :=
  s.comments.find? (fun c => c._id == id)

end CommentModel

/-! ## Responses -/

/-- A pin with its `comments` and `likes` references resolved by `populate`. -/
structure PopulatedPin where
  pin : Pin
  comments : List Comment
  likes : List User
deriving DecidableEq, Repr

/-- A user with its `savedPins` references resolved by `populate`. -/
structure PopulatedUser where
  user : User
  savedPins : List Pin
deriving DecidableEq, Repr

/-- The call `.populate(['comments', 'likes'])`: references that resolve to no document are
dropped. -/
def populatePin (s : Store) (p : Pin) : PopulatedPin :=
  { pin := p
    comments := p.comments.filterMap (CommentModel.findById s)
    likes := p.likes.filterMap (UserModel.findById s) }

/-- The call `.populate('savedPins')`. -/
def populateUser (s : Store) (u : User) : PopulatedUser :=
  { user := u
    savedPins := u.savedPins.filterMap (PinModel.findById s) }

/-- The value of one key of a JSON object in a response body. -/
inductive Value
  | str (s : String)
  | oid (i : ObjectId)
  | fields (kv : List (String × String))
deriving DecidableEq, Repr

/-- The body handed to `res.send` or `res.json`. -/
inductive Body
  | text (s : String)
  | object (kv : List (String × Value))
  | pinEnvelope (success : Bool) (message : String) (data : Pin)
  | commentEnvelope (success : Bool) (message : String) (data : Comment)
  | failEnvelope (success : Bool) (message : String) (data : StoreError)
  | pins (ps : List PopulatedPin)
  | user (u : Option PopulatedUser)
  | thrown (e : StoreError)
  | errorObject (e : StoreError)
deriving DecidableEq, Repr

/-- A response that was sent: status code and body. -/
structure Response where
  status : Nat
  body : Body
deriving DecidableEq, Repr

/-- What one run of a handler leaves behind: the response it sent (`none` when it finished
without sending one), the store, and the passwords it passed to `bcrypt.hash`. -/
structure Outcome where
  response : Option Response
  store : Store
  hashed : List String := []
deriving DecidableEq, Repr

/-- The error a handler gets when it reads a property of `null` (a `TypeError`). -/
def typeError : StoreError := { code := none, message := "Cannot read properties of null" }

/-! ## Like handlers (`src/index.js`, lines 393-437) -/

/-- The method `includes` of a stored reference array. -/
def includes (xs : List ObjectId) (x : ObjectId) : Bool := xs.contains x

/-- The method `push` of an array: the value goes to the end. -/
def push (xs : List ObjectId) (x : ObjectId) : List ObjectId := xs ++ [x]

/-- The method `pop` of an array: the last element goes, whatever argument is passed. -/
def pop (xs : List ObjectId) (_arg : ObjectId) : List ObjectId := xs.dropLast

/-- The handler `app.post("/like/:id")`. Awaited calls: 0 `PinModel.findById`, 1 `pin.save`. -/
def addLike (faults : Faults) (pinId userId : ObjectId) (s : Store) : Outcome :=
  match faults 0 with
  | some _ => { response := some ⟨500, .object [("error", .str "Server error")]⟩, store := s }
  | none =>
    match PinModel.findById s pinId with
    | none => { response := some ⟨404, .object [("error", .str "Pin not found")]⟩, store := s }
    | some pin =>
      if !(includes pin.likes userId) then
        let pin1 := { pin with likes := push pin.likes userId }
        match faults 1 with
        | some _ =>
          { response := some ⟨500, .object [("error", .str "Server error")]⟩, store := s }
        | none =>
          { response := some ⟨200, .pinEnvelope true "Liked successfully" pin1⟩
            store := PinModel.save s pin1 }
      else
        { response := none, store := s }

/-- The handler `app.post("/like/delete/:id")`. Awaited calls: 0 `PinModel.findById`,
1 `pin.save`. -/
def removeLike (faults : Faults) (pinId userId : ObjectId) (s : Store) : Outcome :=
  match faults 0 with
  | some _ => { response := some ⟨500, .object [("error", .str "Server error")]⟩, store := s }
  | none =>
    match PinModel.findById s pinId with
    | none => { response := some ⟨404, .object [("error", .str "Pin not found")]⟩, store := s }
    | some pin =>
      if includes pin.likes userId then
        let pin1 := { pin with likes := pop pin.likes userId }
        match faults 1 with
        | some _ =>
          { response := some ⟨500, .object [("error", .str "Server error")]⟩, store := s }
        | none =>
          { response := some ⟨200, .pinEnvelope true "unLiked successfully" pin1⟩
            store := PinModel.save s pin1 }
      else
        { response := some ⟨200, .pinEnvelope true "unLiked successfully" pin⟩, store := s }

/-- The like list stored for a pin id (`[]` when no pin has the id). -/
def likesOf (s : Store) (pinId : ObjectId) : List ObjectId :=
  match PinModel.findById s pinId with
  | some p => p.likes
  | none => []

/-! ## Save pin (`src/index.js`, lines 334-363) -/

/-- The handler `app.post("/savepin/:userId/:pinID")`. Awaited calls: 0 `UserModel.findById`,
1 `PinModel.findById`, 2 `user.save`. -/
def savePin (faults : Faults) (userId pinId : ObjectId) (s : Store) : Outcome :=
  match faults 0 with
  | some _ => { response := some ⟨500, .text "Error saving pin"⟩, store := s }
  | none =>
    match faults 1 with
    | some _ => { response := some ⟨500, .text "Error saving pin"⟩, store := s }
    | none =>
      match UserModel.findById s userId, PinModel.findById s pinId with
      | some user, some pin =>
        if !(includes user.savedPins pin._id) then
          let user1 := { user with savedPins := push user.savedPins pin._id }
          match faults 2 with
          | some _ => { response := some ⟨500, .text "Error saving pin"⟩, store := s }
          | none =>
            { response := some ⟨200, .text "Pin saved successfully"⟩
              store := UserModel.save s user1 }
        else
          { response := some ⟨200, .text "Pin already saved"⟩, store := s }
      | _, _ => { response := some ⟨404, .text "User or pin not found"⟩, store := s }

/-- The saved-pins list stored for a user id (`[]` when no user has the id). -/
def savedPinsOf (s : Store) (userId : ObjectId) : List ObjectId :=
  match UserModel.findById s userId with
  | some u => u.savedPins
  | none => []

/-! ## Create pin (`src/index.js`, lines 207-229) -/

/-- One element of the `tags` array of a request body, as the JSON parser leaves it: a
string, a number (the non-negative integers that a number holds exactly) or a boolean. -/
inductive TagValue
  | str (s : String)
  | num (n : Nat)
  | bool (b : Bool)
deriving DecidableEq, Repr

/-- The cast of the schema type `[String]` on one element: a string stays, a number or a
boolean becomes its `toString()`. -/
def castString : TagValue → String
  | .str s => s
  | .num n => Nat.repr n
  | .bool true => "true"
  | .bool false => "false"

/-- The body of a create-pin request. -/
structure CreateBody where
  title : Option String
  description : Option String
  link : Option String
  tags : List TagValue
  extras : Option String
  allow_comment : Option Bool
  img_source : Option String
deriving DecidableEq, Repr

/-- The expression `[...new Set(tags)]`: the elements are added to the set one after the
other, an element already in the set is skipped, and the set is read back in insertion
order. -/
def spreadSet (tags : List TagValue) : List TagValue :=
  tags.foldl (fun acc t => if acc.contains t then acc else acc ++ [t]) []

/-- The schema option `required: true` on a string path: the value is there and is not the
empty string. -/
def requiredString : Option String → Option String
  | some v => if v = "" then none else some v
  | none => none

/-- The error of a failed schema validation. -/
def validationError : StoreError := { code := none, message := "validation failed" }

/-- The handler `app.post("/create")`; `newId` is the id the driver gives the new document.
The set is built from the values of the request, and the model constructor then casts what
the spread gives to strings. Awaited call: 0 `newPin.save`, which validates the document
against the schema first. -/
def createPin (faults : Faults) (newId : ObjectId) (b : CreateBody) (s : Store) : Outcome :=
  match faults 0 with
  | some e => { response := some ⟨500, .thrown e⟩, store := s }
  | none =>
    match requiredString b.title, requiredString b.img_source with
    | some title, some img_source =>
      let newPin : Pin :=
        { _id := newId
          title := title
          description := b.description
          link := b.link
          img_source := img_source
          tags := (spreadSet b.tags).map castString
          extras := b.extras
          allow_comment := b.allow_comment.getD false
          comments := []
          likes := [] }
      { response := some ⟨200, .object [("message", .str "Pin Created successfully!")]⟩
        store := { s with pins := s.pins ++ [newPin] } }
    | _, _ => { response := some ⟨500, .thrown validationError⟩, store := s }

/-! ## Category feed (`src/index.js`, lines 269-289) -/

/-- The method `findIndex` of an array (`none` stands for `-1`). -/
def findIndex {α : Type} (p : α → Bool) : List α → Option Nat
  | [] => none
  | x :: xs => if p x then some 0 else (findIndex p xs).map (· + 1)

/-- The query `PinModel.find({ tags: { $in: tags } })`: the pins one of whose tags is in
`tags`, store order. -/
def findTagsIn (s : Store) (tags : List String) : List Pin :=
  s.pins.filter (fun q => q.tags.any (fun t => tags.contains t))

/-- What the category handler uses of the driver's ids: `cast` is the cast `findById`
applies to the string of a request (`none`: the string denotes no id and the query rejects),
`toString` is the method `_id.toString()`. -/
structure IdCodec where
  cast : String → Option ObjectId
  toString : ObjectId → String

/-- The error of a query whose id does not cast. -/
def castError : StoreError := { code := none, message := "Cast to ObjectId failed" }

/-- The handler `app.get("/category/:id")`; `pinId` is the text of the route parameter.
Awaited calls: 0 `PinModel.findById`, 1 `PinModel.find(...).populate(...)`. -/
def category (codec : IdCodec) (faults : Faults) (pinId : String) (s : Store) : Outcome :=
  match faults 0 with
  | some e => { response := some ⟨500, .thrown e⟩, store := s }
  | none =>
    match codec.cast pinId with
    | none => { response := some ⟨500, .thrown castError⟩, store := s }
    | some id =>
    match PinModel.findById s id with
    | none => { response := some ⟨500, .thrown typeError⟩, store := s }
    | some ref =>
      let tags := ref.tags.filter (fun tag => tag != "Explorepage")
      match faults 1 with
      | some e => { response := some ⟨500, .thrown e⟩, store := s }
      | none =>
        let pins := (findTagsIn s tags).map (populatePin s)
        let indexToRemove := findIndex (fun pin => codec.toString pin.pin._id == pinId) pins
        let pins1 :=
          match indexToRemove with
          | some i => pins.eraseIdx i
          | none => pins
        { response := some ⟨200, .pins pins1⟩, store := s }

/-! ## Search (`src/index.js`, lines 314-330) -/

/-- The parts of the regular-expression engine that the model leaves open: the case folding
behind the flag `i`, and what the engine does with a pattern that has a syntax character
other than the dot (`none`: the constructor throws, `some t`: the compiled test). -/
structure RegExpEngine where
  canonicalize : Char → Char
  extended : String → Option (String → Bool)

/-- The syntax characters of a pattern. -/
def syntaxCharacters : List Char :=
  ['^', '$', '\\', '.', '*', '+', '?', '(', ')', '[', ']', Char.ofNat 123, Char.ofNat 125, '|']

/-- One element of a pattern without operators. -/
inductive Atom
  | char (c : Char)
  | dot
deriving DecidableEq, Repr

/-- Reading a pattern made of plain characters and dots; `none` for any other pattern. -/
def parseAtoms : List Char → Option (List Atom)
  | [] => some []
  | c :: cs =>
    if c = '.' then (parseAtoms cs).map (Atom.dot :: ·)
    else if c ∈ syntaxCharacters then none
    else (parseAtoms cs).map (Atom.char c :: ·)

/-- The line terminators, which the dot does not match. -/
def lineTerminators : List Char := ['\n', '\r', Char.ofNat 8232, Char.ofNat 8233]

/-- One atom against one character, under the flag `i`. -/
def atomMatches (canon : Char → Char) : Atom → Char → Bool
  | .char c, d => canon c == canon d
  | .dot, d => !(lineTerminators.contains d)

/-- The atoms match a start of the subject. -/
def matchHere (canon : Char → Char) : List Atom → List Char → Bool
  | [], _ => true
  | _ :: _, [] => false
  | a :: as, d :: ds => atomMatches canon a d && matchHere canon as ds

/-- The atoms match somewhere in the subject (the pattern is not anchored). -/
def testAtoms (canon : Char → Char) (atoms : List Atom) : List Char → Bool
  | [] => matchHere canon atoms []
  | d :: ds => matchHere canon atoms (d :: ds) || testAtoms canon atoms ds

/-- The expression `new RegExp(searchkw, "i")` together with the test `$regex` runs on a
string field: `none` when the constructor throws. -/
def compileRegExp (eng : RegExpEngine) (searchkw : String) : Option (String → Bool) :=
  match parseAtoms searchkw.toList with
  | some atoms => some (fun subject => testAtoms eng.canonicalize atoms subject.toList)
  | none => eng.extended searchkw

/-- The error of a pattern the constructor rejects. -/
def syntaxError : StoreError := { code := none, message := "Invalid regular expression" }

/-- The handler `app.post("/search/:searchword")`. Awaited call:
0 `PinModel.find(...).populate(...)`. -/
def search (eng : RegExpEngine) (faults : Faults) (searchkw : String) (s : Store) : Outcome :=
  match compileRegExp eng searchkw with
  | none => { response := some ⟨500, .errorObject syntaxError⟩, store := s }
  | some test =>
    match faults 0 with
    | some e => { response := some ⟨500, .errorObject e⟩, store := s }
    | none =>
      let pin := s.pins.filter (fun p =>
        test p.title || (match p.description with
                         | some d => test d
                         | none => false) || p.tags.contains searchkw)
      { response := some ⟨200, .pins (pin.map (populatePin s))⟩, store := s }

/-! ## Register and login (`src/index.js`, lines 25-129) -/

/-- The result of a validator: `valid` and the messages per field. -/
structure Validation where
  valid : Bool
  errors : List (String × String)
deriving DecidableEq, Repr

/-- What the two user handlers call outside `src/index.js`: the validators of
`./validator/validator` (that module is not among the sources) and the hashing library
(`hash` is `bcrypt.hash(password, 13)`, `compare` is `bcrypt.compare`). -/
structure Env where
  validateRegisterInputs : String → String → String → String → Validation
  validateLoginInputs : String → String → Validation
  hash : String → String
  compare : String → String → Bool

/-- The first `save` of a new user document: the unique index on `fname` rejects a name
that is stored already with the duplicate-key code 11000. -/
def UserModel.insert (s : Store) (u : User) : Except StoreError Store :=
  if s.users.any (fun v => v.fname == u.fname) then
    .error { code := some 11000, message := "E11000 duplicate key error" }
  else
    .ok { s with users := s.users ++ [u] }

/-- The `catch` block of the register handler. -/
def registerCatch (error : StoreError) (s : Store) (hashed : List String) : Outcome :=
  if error.code = some 11000 then
    { response := some ⟨400, .object [("errors", .fields
        [("name", "This username is already taken. Please choose a different one.")])]⟩
      store := s, hashed := hashed }
  else
    { response := some ⟨500, .object
        [("message", .str "Internal Server Error"), ("error", .str error.message)]⟩
      store := s, hashed := hashed }

/-- The handler `app.post("/register")`; `newId` is the id the driver gives the new
document. Awaited calls: 0 `UserModel.findOne`, 1 `bcrypt.hash`, 2 `newUser.save`. -/
def register (env : Env) (faults : Faults) (newId : ObjectId)
    (fname email password dob : String) (s : Store) : Outcome :=
  let v := env.validateRegisterInputs fname email password dob
  if !v.valid then
    { response := some ⟨400, .object [("errors", .fields v.errors)]⟩, store := s }
  else
    match faults 0 with
    | some error => registerCatch error s []
    | none =>
      match UserModel.findOne s email with
      | some _ =>
        { response := some ⟨400, .object [("errors", .fields
            [("email", "Email address already exists!!! Proceed to Login.")])]⟩
          store := s }
      | none =>
        match faults 1 with
        | some error => registerCatch error s [password]
        | none =>
          let hashedPassword := env.hash password
          let newUser : User :=
            { _id := newId
              fname := fname
              email := email
              password := hashedPassword
              dob := dob
              savedPins := [] }
          match faults 2 with
          | some error => registerCatch error s [password]
          | none =>
            match UserModel.insert s newUser with
            | .error error => registerCatch error s [password]
            | .ok s1 =>
              { response := some ⟨200, .object
                  [("message", .str "User registered successfully! Proceed to Login.")]⟩
                store := s1, hashed := [password] }

/-- The `catch` block of the login handler. -/
def loginCatch (error : StoreError) (s : Store) : Outcome :=
  { response := some ⟨500, .object
      [("message", .str "Internal Server Error"), ("error", .str error.message)]⟩
    store := s }

/-- The handler `app.post("/login")`. Awaited calls: 0 `UserModel.findOne`,
1 `bcrypt.compare`. -/
def login (env : Env) (faults : Faults) (email password : String) (s : Store) : Outcome :=
  let v := env.validateLoginInputs email password
  if !v.valid then
    { response := some ⟨400, .object [("errors", .fields v.errors)]⟩, store := s }
  else
    match faults 0 with
    | some error => loginCatch error s
    | none =>
      match UserModel.findOne s email with
      | none =>
        { response := some ⟨400, .object [("errors", .fields
            [("email", "The email you entered does not belong to any account.")])]⟩
          store := s }
      | some foundUser =>
        match faults 1 with
        | some error => loginCatch error s
        | none =>
          let matchPassword := env.compare password foundUser.password
          if !matchPassword then
            { response := some ⟨400, .object [("errors", .fields
                [("password", "The entered password is incorrect")])]⟩
              store := s }
          else
            { response := some ⟨200, .object
                [("ID", .oid foundUser._id), ("email", .str email),
                 ("Name", .str foundUser.fname)]⟩
              store := s }

/-! ## Get single user and create comment (`src/index.js`, lines 144-151 and 370-386) -/

/-- The handler `app.get("/user/:id")`. Awaited call: 0 `UserModel.findById(...).populate`.
The `catch` block binds the error as `err` and then reads `error`, a name that is not
declared anywhere: the read throws inside the block, before `send` is called. -/
def getUser (faults : Faults) (id : ObjectId) (s : Store) : Outcome :=
  match faults 0 with
  | some _ => { response := none, store := s }
  | none =>
    { response := some ⟨200, .user ((UserModel.findById s id).map (populateUser s))⟩
      store := s }

/-- The body of a create-comment request. -/
structure CommentBody where
  pinId : Option ObjectId
  username : Option String
  commentText : Option String
deriving DecidableEq, Repr

/-- The call `PinModel.findByIdAndUpdate(pinId, { $push: { comments: id } })`; no pin with
the id: nothing changes. -/
def PinModel.pushComment (s : Store) (pinId id : ObjectId) : Store :=
  match PinModel.findById s pinId with
  | some p => PinModel.save s { p with comments := push p.comments id }
  | none => s

/-- The handler `app.post("/comment/:pinId")`; `newId` is the id the driver gives the new
document. Awaited calls: 0 `newReview.save`, 1 `PinModel.findByIdAndUpdate`. -/
def createComment (faults : Faults) (newId pinId : ObjectId) (b : CommentBody) (s : Store) :
    Outcome :=
  match faults 0 with
  | some e => { response := some ⟨500, .failEnvelope false "Failed to submit" e⟩, store := s }
  | none =>
    match requiredString b.username, requiredString b.commentText with
    | some username, some commentText =>
      let savedComment : Comment :=
        { _id := newId, pinId := b.pinId, username := username, commentText := commentText }
      let s1 := { s with comments := s.comments ++ [savedComment] }
      match faults 1 with
      | some e =>
        { response := some ⟨500, .failEnvelope false "Failed to submit" e⟩, store := s1 }
      | none =>
        { response := some ⟨200, .commentEnvelope true "Comment submitted" savedComment⟩
          store := PinModel.pushComment s1 pinId savedComment._id }
    | _, _ =>
      { response := some ⟨500, .failEnvelope false "Failed to submit" validationError⟩
        store := s }

/-! ## The search condition in the words of the specification -/

/-- The text contains the keyword as a substring, letter case ignored: the folded keyword
stands somewhere in the folded text. -/
def containsIgnoringCase (canon : Char → Char) (text k : List Char) : Prop :=
  ∃ pre post : List Char, text.map canon = pre ++ k.map canon ++ post

/-- The pin's title contains the keyword ignoring case, or its description does, or its tag
list has an element equal to the keyword. -/
def searchHit (canon : Char → Char) (k : String) (p : Pin) : Prop :=
  containsIgnoringCase canon p.title.toList k.toList ∨
  (∃ d, p.description = some d ∧ containsIgnoringCase canon d.toList k.toList) ∨
  k ∈ p.tags

/-- An engine with the case folding of the ASCII letters; it takes no pattern with an
operator other than the dot. -/
def asciiEngine : RegExpEngine :=
  { canonicalize := Char.toUpper
    extended := fun _ => none }

/-! ## The hexadecimal form of an id -/

/-- The last `width` hexadecimal digits of a number, lower case, most significant first. -/
def toHex : Nat → Nat → List Char
  | 0, _ => []
  | width + 1, n => toHex width (n / 16) ++ [Nat.digitChar (n % 16)]

/-- The value of one hexadecimal digit, in either case. -/
def hexValue (c : Char) : Option Nat :=
  if '0' ≤ c ∧ c ≤ '9' then some (c.toNat - 48)
  else if 'a' ≤ c ∧ c ≤ 'f' then some (c.toNat - 87)
  else if 'A' ≤ c ∧ c ≤ 'F' then some (c.toNat - 55)
  else none

/-- The number a list of hexadecimal digits writes, after the digits read so far. -/
def fromHex : List Char → Nat → Option Nat
  | [], acc => some acc
  | c :: cs, acc =>
    match hexValue c with
    | some d => fromHex cs (16 * acc + d)
    | none => none

/-- The ids written as 24 hexadecimal digits: `toString` writes lower case, the cast reads
24 digits in either case and takes no other string. -/
def hexCodec : IdCodec :=
  { cast := fun text => if text.length = 24 then fromHex text.toList 0 else none
    toString := fun id => String.mk (toHex 24 id) }

/-! ## Sample documents -/

/-- A pin liked by the users 1 and 2, in that order. -/
def samplePin : Pin :=
  { _id := 7
    title := "cat"
    link := none
    img_source := "cat.png"
    description := none
    extras := none
    tags := ["pets", "Explorepage"]
    allow_comment := false
    comments := []
    likes := [1, 2] }

/-- A user with no saved pin. -/
def sampleUser : User :=
  { _id := 1, fname := "ann", email := "ann@example.com", password := "hash:pw1"
    dob := "2000-01-01", savedPins := [] }

/-- A store with one user and one pin. -/
def sampleStore : Store :=
  { users := [sampleUser], pins := [samplePin], comments := [] }

/-- A create-pin request whose tag list names one tag twice. -/
def sampleCreateBody : CreateBody :=
  { title := some "boat"
    description := none
    link := none
    tags := [.str "a", .str "a", .str "b"]
    extras := none
    allow_comment := none
    img_source := some "boat.png" }

/-- A pin that shares the tag `pets` with `samplePin`. -/
def relatedPin : Pin :=
  { _id := 8
    title := "Dog"
    link := none
    img_source := "dog.png"
    description := some "a DOG in the park"
    extras := none
    tags := ["pets"]
    allow_comment := true
    comments := []
    likes := [] }

/-- A pin that shares only the tag `Explorepage` with `samplePin`. -/
def explorePin : Pin :=
  { _id := 9
    title := "Bridge"
    link := none
    img_source := "bridge.png"
    description := none
    extras := none
    tags := ["Explorepage", "travel"]
    allow_comment := false
    comments := []
    likes := [] }

/-- A store with three pins. -/
def feedStore : Store :=
  { users := [sampleUser], pins := [samplePin, relatedPin, explorePin], comments := [] }

/-- A create-pin request whose tag list has the number 1 and the string `1`. -/
def mixedCreateBody : CreateBody :=
  { title := some "boat"
    description := none
    link := none
    tags := [.num 1, .str "1"]
    extras := none
    allow_comment := none
    img_source := some "boat.png" }

/-- A pin whose id has a letter among its hexadecimal digits. -/
def letterPin : Pin :=
  { _id := 10
    title := "Kitten"
    link := none
    img_source := "kitten.png"
    description := none
    extras := none
    tags := ["pets"]
    allow_comment := false
    comments := []
    likes := [] }

/-- A store with `letterPin` and a pin of the same tag. -/
def letterStore : Store :=
  { users := [], pins := [letterPin, relatedPin], comments := [] }

/-- An environment whose validators take every input and whose hash of a password is the
password behind a fixed marker. -/
def sampleEnv : Env :=
  { validateRegisterInputs := fun _ _ _ _ => { valid := true, errors := [] }
    validateLoginInputs := fun _ _ => { valid := true, errors := [] }
    hash := fun pw => "hash:" ++ pw
    compare := fun pw h => h == "hash:" ++ pw }

/-- A second user with the email of `sampleUser` and another password. -/
def twinUser : User :=
  { _id := 2, fname := "bob", email := "ann@example.com", password := "hash:pw2"
    dob := "1999-12-31", savedPins := [] }

/-- A store in which two users have the same email. -/
def twinStore : Store :=
  { users := [sampleUser, twinUser], pins := [], comments := [] }

/-! ## Lemmas on the store operations -/

theorem pin_find_id {ps : List Pin} {id : ObjectId} {p : Pin}
    (h : ps.find? (fun q => q._id == id) = some p) : p._id = id := by
  have := List.find?_some h
  simpa using this

theorem pin_find_updateOne {ps : List Pin} {id : ObjectId} {p p1 : Pin}
    (h : ps.find? (fun q => q._id == id) = some p) (h1 : p1._id = id) :
    (PinModel.updateOne ps p1).find? (fun q => q._id == id) = some p1 := by
  induction ps with
  | nil => simp at h
  | cons q qs ih =>
    by_cases hq : q._id = id
    · simp [PinModel.updateOne, hq, h1]
    · have hq1 : ¬ q._id = p1._id := by rw [h1]; exact hq
      have hb : (q._id == id) = false := by simpa using hq
      have h2 : qs.find? (fun q => q._id == id) = some p := by
        rw [List.find?_cons, hb] at h; exact h
      simp [PinModel.updateOne, hq1, List.find?, hq, ih h2]

theorem pin_updateOne_restores {ps : List Pin} {id : ObjectId} {p p1 : Pin}
    (h : ps.find? (fun q => q._id == id) = some p) (h1 : p1._id = id) :
    PinModel.updateOne (PinModel.updateOne ps p1) p = ps := by
  have hp : p._id = id := pin_find_id h
  induction ps with
  | nil => simp at h
  | cons q qs ih =>
    by_cases hq : q._id = id
    · have hb : (q._id == id) = true := by simpa using hq
      have hqp : q = p := by
        rw [List.find?_cons, hb] at h; simpa using h
      simp [PinModel.updateOne, hq, h1, hp, hqp]
    · have hq1 : ¬ q._id = p1._id := by rw [h1]; exact hq
      have hq2 : ¬ q._id = p._id := by rw [hp]; exact hq
      have hb : (q._id == id) = false := by simpa using hq
      have h2 : qs.find? (fun q => q._id == id) = some p := by
        rw [List.find?_cons, hb] at h; exact h
      simp [PinModel.updateOne, hq1, hq2, ih h2]

theorem pin_findById_save {s : Store} {id : ObjectId} {p p1 : Pin}
    (h : PinModel.findById s id = some p) (h1 : p1._id = id) :
    PinModel.findById (PinModel.save s p1) id = some p1 :=
  pin_find_updateOne h h1

theorem user_find_updateOne {us : List User} {id : ObjectId} {u u1 : User}
    (h : us.find? (fun v => v._id == id) = some u) (h1 : u1._id = id) :
    (UserModel.updateOne us u1).find? (fun v => v._id == id) = some u1 := by
  induction us with
  | nil => simp at h
  | cons v vs ih =>
    by_cases hv : v._id = id
    · simp [UserModel.updateOne, hv, h1]
    · have hv1 : ¬ v._id = u1._id := by rw [h1]; exact hv
      have hb : (v._id == id) = false := by simpa using hv
      have h2 : vs.find? (fun v => v._id == id) = some u := by
        rw [List.find?_cons, hb] at h; exact h
      simp [UserModel.updateOne, hv1, List.find?, hv, ih h2]

theorem user_find_id {us : List User} {id : ObjectId} {u : User}
    (h : us.find? (fun v => v._id == id) = some u) : u._id = id := by
  have := List.find?_some h
  simpa using this

/-! ## Lemmas on the like handlers -/

theorem includes_eq_true {xs : List ObjectId} {x : ObjectId} : includes xs x = true ↔ x ∈ xs := by
  simp [includes]

theorem includes_eq_false {xs : List ObjectId} {x : ObjectId} :
    includes xs x = false ↔ x ∉ xs := by
  simp [includes]

/-- Add Like on a pin the user has not liked, no call rejecting: the pin is stored with the
user id at the end of its like list and sent back with status 200. -/
theorem addLike_fresh {s : Store} {pinId u : ObjectId} {pin : Pin}
    (hfind : PinModel.findById s pinId = some pin) (hu : u ∉ pin.likes) :
    addLike noFaults pinId u s =
      { response := some ⟨200, .pinEnvelope true "Liked successfully"
          { pin with likes := pin.likes ++ [u] }⟩
        store := PinModel.save s { pin with likes := pin.likes ++ [u] } } := by
  simp [addLike, noFaults, hfind, includes_eq_false.mpr hu, push]

/-- Add Like on a pin the user has liked: nothing is stored. -/
theorem addLike_present {faults : Faults} {s : Store} {pinId u : ObjectId} {pin : Pin}
    (hfind : PinModel.findById s pinId = some pin) (hu : u ∈ pin.likes) :
    (addLike faults pinId u s).store = s := by
  unfold addLike
  cases faults 0 <;> simp [hfind, includes_eq_true.mpr hu]

/-- Remove Like on a pin the user has liked, no call rejecting: the pin is stored with its
like list cut by the last entry. -/
theorem removeLike_present {s : Store} {pinId u : ObjectId} {pin : Pin}
    (hfind : PinModel.findById s pinId = some pin) (hu : u ∈ pin.likes) :
    (removeLike noFaults pinId u s).store =
      PinModel.save s { pin with likes := pin.likes.dropLast } := by
  simp [removeLike, noFaults, hfind, includes_eq_true.mpr hu, pop]

/-! ## Claims on the like handlers -/

/-- C1 (the code departs from it): Remove Like of user 1 on a pin whose like list is
`[1, 2]` stores the like list `[1]`: the last entry, the like of user 2, is gone and the
like of user 1 stays, where removing one occurrence of user 1 would leave `[2]`. -/
theorem removeLike_drops_last_entry_not_the_user :
    likesOf sampleStore 7 = [1, 2] ∧
    (removeLike noFaults 7 1 sampleStore).response.map (·.status) = some 200 ∧
    likesOf (removeLike noFaults 7 1 sampleStore).store 7 = [1] ∧
    List.erase [1, 2] 1 = [2] := by
  decide

/-- C2 (the code departs from it): when the pin is found and the user id is in its like
list already, the Add Like handler finishes without sending any response, whatever the
outcome of the later calls. -/
theorem addLike_already_liked_sends_no_response (faults : Faults) (s : Store)
    (pinId u : ObjectId) (pin : Pin) (h0 : faults 0 = none)
    (hfind : PinModel.findById s pinId = some pin) (hu : u ∈ pin.likes) :
    (addLike faults pinId u s).response = none := by
  simp [addLike, h0, hfind, includes_eq_true.mpr hu]

theorem addLike_already_liked_sends_no_response_witness :
    PinModel.findById sampleStore 7 = some samplePin ∧ 1 ∈ samplePin.likes ∧
    (addLike noFaults 7 1 sampleStore).response = none :=
  ⟨by decide, by decide,
    addLike_already_liked_sends_no_response noFaults sampleStore 7 1 samplePin rfl
      (by decide) (by decide)⟩

/-- The handler of `GET /user/:id` sends no response when its store call rejects. -/
theorem getUser_rejected_sends_no_response (faults : Faults) (e : StoreError) (id : ObjectId)
    (s : Store) (h0 : faults 0 = some e) : (getUser faults id s).response = none := by
  simp [getUser, h0]

/-- C5: on a pin whose like list does not hold the user id, the first Add Like appends the
id, the second leaves the store as it is, and the like list then holds the id exactly once;
and for every store and every outcome of the calls, Add Like does not take the number of
occurrences of the id above one when it was at most one. -/
theorem addLike_twice_likes_once (s : Store) (pinId u : ObjectId) (pin : Pin)
    (hfind : PinModel.findById s pinId = some pin) (hu : u ∉ pin.likes) :
    likesOf (addLike noFaults pinId u s).store pinId = pin.likes ++ [u] ∧
    (addLike noFaults pinId u (addLike noFaults pinId u s).store).store =
      (addLike noFaults pinId u s).store ∧
    (likesOf (addLike noFaults pinId u (addLike noFaults pinId u s).store).store pinId).count u
      = 1 ∧
    ∀ (faults : Faults) (t : Store), (likesOf t pinId).count u ≤ 1 →
      (likesOf (addLike faults pinId u t).store pinId).count u ≤ 1 := by
  have hid : pin._id = pinId := pin_find_id hfind
  have hfind1 : PinModel.findById (addLike noFaults pinId u s).store pinId =
      some { pin with likes := pin.likes ++ [u] } := by
    rw [addLike_fresh hfind hu]
    exact pin_findById_save hfind hid
  have hlikes : likesOf (addLike noFaults pinId u s).store pinId = pin.likes ++ [u] := by
    simp [likesOf, hfind1]
  have hsame : (addLike noFaults pinId u (addLike noFaults pinId u s).store).store =
      (addLike noFaults pinId u s).store :=
    addLike_present hfind1 (by simp)
  refine ⟨hlikes, hsame, ?_, ?_⟩
  · rw [hsame, hlikes]
    simp [List.count_eq_zero_of_not_mem hu]
  · intro faults t ht
    unfold addLike
    cases h0 : faults 0 with
    | some e => simpa using ht
    | none =>
      cases hf : PinModel.findById t pinId with
      | none => simpa [hf] using ht
      | some q =>
        have hq : q._id = pinId := pin_find_id hf
        by_cases hin : u ∈ q.likes
        · simpa [hf, includes_eq_true.mpr hin] using ht
        · cases h1 : faults 1 with
          | some e => simpa [hf, includes_eq_false.mpr hin, h1] using ht
          | none =>
            have hsave : PinModel.findById (PinModel.save t { q with likes := q.likes ++ [u] })
                pinId = some { q with likes := q.likes ++ [u] } :=
              pin_findById_save hf hq
            simp [hf, includes_eq_false.mpr hin, h1, push, likesOf, hsave,
              List.count_eq_zero_of_not_mem hin]

theorem addLike_twice_likes_once_witness :
    PinModel.findById sampleStore 7 = some samplePin ∧ 5 ∉ samplePin.likes ∧
    likesOf (addLike noFaults 7 5 sampleStore).store 7 = [1, 2, 5] ∧
    (addLike noFaults 7 5 (addLike noFaults 7 5 sampleStore).store).store =
      (addLike noFaults 7 5 sampleStore).store ∧
    (likesOf (addLike noFaults 7 5 (addLike noFaults 7 5 sampleStore).store).store 7).count 5
      = 1 ∧
    ∀ (faults : Faults) (t : Store), (likesOf t 7).count 5 ≤ 1 →
      (likesOf (addLike faults 7 5 t).store 7).count 5 ≤ 1 :=
  ⟨by decide, by decide,
    addLike_twice_likes_once sampleStore 7 5 samplePin (by decide) (by decide)⟩

/-- C10: on a pin whose like list does not hold the user id, Add Like followed by Remove
Like with the same id gives back the store it started from, so the pin has its original
like list, same entries in the same order. -/
theorem addLike_then_removeLike_restores (s : Store) (pinId u : ObjectId) (pin : Pin)
    (hfind : PinModel.findById s pinId = some pin) (hu : u ∉ pin.likes) :
    (removeLike noFaults pinId u (addLike noFaults pinId u s).store).store = s ∧
    likesOf (removeLike noFaults pinId u (addLike noFaults pinId u s).store).store pinId
      = pin.likes := by
  have hid : pin._id = pinId := pin_find_id hfind
  have hfind1 : PinModel.findById (addLike noFaults pinId u s).store pinId =
      some { pin with likes := pin.likes ++ [u] } := by
    rw [addLike_fresh hfind hu]
    exact pin_findById_save hfind hid
  have hstore : (removeLike noFaults pinId u (addLike noFaults pinId u s).store).store = s := by
    rw [removeLike_present hfind1 (by simp), addLike_fresh hfind hu]
    simp only [PinModel.save, List.dropLast_concat]
    have h2 : PinModel.updateOne (PinModel.updateOne s.pins { pin with likes := pin.likes ++ [u] })
        pin = s.pins := pin_updateOne_restores hfind hid
    rw [h2]
  refine ⟨hstore, ?_⟩
  rw [hstore]
  simp [likesOf, hfind]

theorem addLike_then_removeLike_restores_witness :
    PinModel.findById sampleStore 7 = some samplePin ∧ 5 ∉ samplePin.likes ∧
    (removeLike noFaults 7 5 (addLike noFaults 7 5 sampleStore).store).store = sampleStore ∧
    likesOf (removeLike noFaults 7 5 (addLike noFaults 7 5 sampleStore).store).store 7
      = [1, 2] :=
  ⟨by decide, by decide,
    addLike_then_removeLike_restores sampleStore 7 5 samplePin (by decide) (by decide)⟩

/-! ## Save pin -/

/-- C6: for a stored user and a stored pin that is not in the user's saved-pins list, the
first Save Pin answers 200 with the text of a new save and stores the list with the pin at
its end; the second answers 200 with the text of a pin saved already and leaves the store as
it is, so the list holds the pin exactly once. -/
theorem savePin_twice_saves_once (s : Store) (userId pinId : ObjectId) (user : User) (pin : Pin)
    (hu : UserModel.findById s userId = some user)
    (hp : PinModel.findById s pinId = some pin) (hn : pinId ∉ user.savedPins) :
    (savePin noFaults userId pinId s).response = some ⟨200, .text "Pin saved successfully"⟩ ∧
    savedPinsOf (savePin noFaults userId pinId s).store userId = user.savedPins ++ [pinId] ∧
    (savePin noFaults userId pinId (savePin noFaults userId pinId s).store).response
      = some ⟨200, .text "Pin already saved"⟩ ∧
    (savePin noFaults userId pinId (savePin noFaults userId pinId s).store).store
      = (savePin noFaults userId pinId s).store ∧
    (savedPinsOf (savePin noFaults userId pinId (savePin noFaults userId pinId s).store).store
      userId).count pinId = 1 := by
  have hpid : pin._id = pinId := pin_find_id hp
  have huid : user._id = userId := user_find_id hu
  have hn1 : pin._id ∉ user.savedPins := by rw [hpid]; exact hn
  have h1 : savePin noFaults userId pinId s =
      { response := some ⟨200, .text "Pin saved successfully"⟩
        store := UserModel.save s { user with savedPins := user.savedPins ++ [pinId] } } := by
    simp [savePin, noFaults, hu, hp, includes_eq_false.mpr hn1, includes_eq_false.mpr hn, push,
      hpid]
  have hu1 : UserModel.findById
      (UserModel.save s { user with savedPins := user.savedPins ++ [pinId] }) userId =
      some { user with savedPins := user.savedPins ++ [pinId] } :=
    user_find_updateOne hu huid
  have hp1 : PinModel.findById
      (UserModel.save s { user with savedPins := user.savedPins ++ [pinId] }) pinId =
      some pin := hp
  have h2 : savePin noFaults userId pinId
      (UserModel.save s { user with savedPins := user.savedPins ++ [pinId] }) =
      { response := some ⟨200, .text "Pin already saved"⟩
        store := UserModel.save s { user with savedPins := user.savedPins ++ [pinId] } } := by
    simp [savePin, noFaults, hu1, hp1, includes, hpid]
  rw [h1]
  simp only [h2]
  refine ⟨trivial, ?_, trivial, trivial, ?_⟩
  · simp [savedPinsOf, hu1]
  · simp [savedPinsOf, hu1, List.count_eq_zero_of_not_mem hn]

theorem savePin_twice_saves_once_witness :
    UserModel.findById sampleStore 1 = some sampleUser ∧
    PinModel.findById sampleStore 7 = some samplePin ∧ 7 ∉ sampleUser.savedPins ∧
    (savePin noFaults 1 7 sampleStore).response = some ⟨200, .text "Pin saved successfully"⟩ ∧
    savedPinsOf (savePin noFaults 1 7 sampleStore).store 1 = [7] ∧
    (savePin noFaults 1 7 (savePin noFaults 1 7 sampleStore).store).response
      = some ⟨200, .text "Pin already saved"⟩ ∧
    (savePin noFaults 1 7 (savePin noFaults 1 7 sampleStore).store).store
      = (savePin noFaults 1 7 sampleStore).store ∧
    (savedPinsOf (savePin noFaults 1 7 (savePin noFaults 1 7 sampleStore).store).store
      1).count 7 = 1 :=
  ⟨by decide, by decide, by decide,
    savePin_twice_saves_once sampleStore 1 7 sampleUser samplePin (by decide) (by decide)
      (by decide)⟩

/-! ## Create pin -/

theorem spreadSet_fold_nodup (tags acc : List TagValue) (h : acc.Nodup) :
    (tags.foldl (fun acc t => if acc.contains t then acc else acc ++ [t]) acc).Nodup := by
  induction tags generalizing acc with
  | nil => simpa using h
  | cons t ts ih =>
    simp only [List.foldl_cons]
    apply ih
    by_cases ht : t ∈ acc
    · simpa [ht] using h
    · have hc : acc.contains t = false := by simpa using ht
      simp only [hc, Bool.false_eq_true, ↓reduceIte]
      exact List.Nodup.append h (List.nodup_singleton t) (by simpa using ht)

theorem spreadSet_fold_mem (tags acc : List TagValue) (x : TagValue) :
    x ∈ tags.foldl (fun acc t => if acc.contains t then acc else acc ++ [t]) acc ↔
      x ∈ acc ∨ x ∈ tags := by
  induction tags generalizing acc with
  | nil => simp
  | cons t ts ih =>
    simp only [List.foldl_cons, ih, List.mem_cons]
    by_cases ht : t ∈ acc
    · have hc : acc.contains t = true := by simpa using ht
      simp only [hc, ↓reduceIte]
      constructor
      · rintro (h | h)
        · exact Or.inl h
        · exact Or.inr (Or.inr h)
      · rintro (h | h | h)
        · exact Or.inl h
        · exact Or.inl (h ▸ ht)
        · exact Or.inr h
    · have hc : acc.contains t = false := by simpa using ht
      simp only [hc, Bool.false_eq_true, ↓reduceIte, List.mem_append, List.mem_singleton]
      tauto

theorem spreadSet_nodup (tags : List TagValue) : (spreadSet tags).Nodup :=
  spreadSet_fold_nodup tags [] List.nodup_nil

theorem mem_spreadSet (tags : List TagValue) (x : TagValue) : x ∈ spreadSet tags ↔ x ∈ tags := by
  simpa [spreadSet] using spreadSet_fold_mem tags [] x

/-- C3 as it is written fails: the request tags are the number 1 and the string `1`, two
different values for the set, and both are cast to the string `1` afterwards, so the new pin
is stored with the tags `["1", "1"]`, a list with a duplicate. -/
theorem createPin_dedups_before_cast :
    (createPin noFaults 9 mixedCreateBody sampleStore).response.map (·.status) = some 200 ∧
    (createPin noFaults 9 mixedCreateBody sampleStore).store.pins.map (·.tags)
      = [samplePin.tags, ["1", "1"]] ∧
    ¬ (["1", "1"] : List String).Nodup := by
  decide

/-- C3, amended: a Create Pin request with a title and an image source whose tags are all
strings, its save going through, is answered with 200 and adds one pin to the store; the
tags of that pin have no duplicate and have the same elements as the tag list of the
request. -/
theorem createPin_stores_string_tags_as_set (faults : Faults) (newId : ObjectId)
    (b : CreateBody) (s : Store) (title img : String) (h0 : faults 0 = none)
    (ht : requiredString b.title = some title) (hi : requiredString b.img_source = some img)
    (hs : ∀ v ∈ b.tags, ∃ t, v = TagValue.str t) :
    ∃ newPin : Pin,
      (createPin faults newId b s).response.map (·.status) = some 200 ∧
      (createPin faults newId b s).store.pins = s.pins ++ [newPin] ∧
      newPin._id = newId ∧
      newPin.tags.Nodup ∧ ∀ t, t ∈ newPin.tags ↔ TagValue.str t ∈ b.tags := by
  refine ⟨{ _id := newId
            title := title
            description := b.description
            link := b.link
            img_source := img
            tags := (spreadSet b.tags).map castString
            extras := b.extras
            allow_comment := b.allow_comment.getD false
            comments := []
            likes := [] }, ?_, ?_, ?_, ?_, ?_⟩
  · simp [createPin, h0, ht, hi]
  · simp [createPin, h0, ht, hi]
  · rfl
  · apply List.Nodup.map_on _ (spreadSet_nodup b.tags)
    intro x hx y hy hxy
    obtain ⟨tx, rfl⟩ := hs x ((mem_spreadSet b.tags x).mp hx)
    obtain ⟨ty, rfl⟩ := hs y ((mem_spreadSet b.tags y).mp hy)
    simp only [castString] at hxy
    rw [hxy]
  · intro t
    simp only [List.mem_map, mem_spreadSet]
    constructor
    · rintro ⟨v, hv, hc⟩
      obtain ⟨tv, rfl⟩ := hs v hv
      simp only [castString] at hc
      rw [← hc]
      exact hv
    · intro h
      exact ⟨TagValue.str t, h, rfl⟩

theorem createPin_stores_string_tags_as_set_witness :
    (∀ v ∈ sampleCreateBody.tags, ∃ t, v = TagValue.str t) ∧
    (createPin noFaults 9 sampleCreateBody sampleStore).store.pins.map (·.tags)
      = [samplePin.tags, ["a", "b"]] ∧
    ∃ newPin : Pin,
      (createPin noFaults 9 sampleCreateBody sampleStore).response.map (·.status) = some 200 ∧
      (createPin noFaults 9 sampleCreateBody sampleStore).store.pins
        = sampleStore.pins ++ [newPin] ∧
      newPin._id = 9 ∧
      newPin.tags.Nodup ∧ ∀ t, t ∈ newPin.tags ↔ TagValue.str t ∈ sampleCreateBody.tags :=
  ⟨by
      intro v hv
      simp only [sampleCreateBody, List.mem_cons, List.mem_singleton] at hv
      rcases hv with rfl | rfl | rfl | hv
      · exact ⟨"a", rfl⟩
      · exact ⟨"a", rfl⟩
      · exact ⟨"b", rfl⟩
      · simp at hv,
    by decide,
    createPin_stores_string_tags_as_set noFaults 9 sampleCreateBody sampleStore "boat"
      "boat.png" rfl (by decide) (by decide) (by
        intro v hv
        simp only [sampleCreateBody, List.mem_cons, List.mem_singleton] at hv
        rcases hv with rfl | rfl | rfl | hv
        · exact ⟨"a", rfl⟩
        · exact ⟨"a", rfl⟩
        · exact ⟨"b", rfl⟩
        · simp at hv)⟩

/-! ## Category feed -/

theorem pin_find_of_mem_nodup {ps : List Pin} {P : Pin} (hP : P ∈ ps)
    (hid : (ps.map (·._id)).Nodup) : ps.find? (fun q => q._id == P._id) = some P := by
  induction ps with
  | nil => simp at hP
  | cons q qs ih =>
    rw [List.map_cons, List.nodup_cons] at hid
    rcases List.mem_cons.mp hP with h | h
    · subst h
      simp
    · have hne : ¬ q._id = P._id := by
        intro he
        exact hid.1 (he ▸ List.mem_map_of_mem (·._id) h)
      have hb : (q._id == P._id) = false := by simpa using hne
      rw [List.find?_cons, hb]
      exact ih h hid.2

theorem filter_ne_of_not_mem (id : ObjectId) (L : List Pin) (h : id ∉ L.map (·._id)) :
    L.filter (fun q => q._id != id) = L := by
  rw [List.filter_eq_self]
  intro q hq
  have : q._id ≠ id := fun he => h (he ▸ List.mem_map_of_mem (·._id) hq)
  simpa using this

/-- Taking out the element `findIndex` points at, in a list of populated pins with distinct
ids, leaves the pins with another id. -/
theorem splice_found_eq_filter (s : Store) (id : ObjectId) (L : List Pin)
    (h : (L.map (·._id)).Nodup) :
    (match findIndex (fun pp : PopulatedPin => pp.pin._id == id) (L.map (populatePin s)) with
      | some i => (L.map (populatePin s)).eraseIdx i
      | none => L.map (populatePin s))
      = (L.filter (fun q => q._id != id)).map (populatePin s) := by
  induction L with
  | nil => simp [findIndex]
  | cons q qs ih =>
    rw [List.map_cons, List.nodup_cons] at h
    by_cases hq : q._id = id
    · have hrest : qs.filter (fun q => q._id != id) = qs :=
        filter_ne_of_not_mem id qs (hq ▸ h.1)
      simp [findIndex, populatePin, hq, hrest]
    · have ih1 := ih h.2
      have hb : (q._id == id) = false := by simpa using hq
      have hfi : findIndex (fun pp : PopulatedPin => pp.pin._id == id)
          (List.map (populatePin s) (q :: qs)) =
          (findIndex (fun pp : PopulatedPin => pp.pin._id == id)
            (List.map (populatePin s) qs)).map (· + 1) := by
        simp [findIndex, populatePin, hb]
      rw [hfi]
      cases hf : findIndex (fun pp : PopulatedPin => pp.pin._id == id)
          (List.map (populatePin s) qs) with
      | none =>
        rw [hf] at ih1
        simp only [Option.map_none'] 
        simp only [List.map_cons, List.filter_cons, hq, bne_iff_ne, ne_eq, not_false_eq_true,
          decide_True, ↓reduceIte]
        simp only at ih1
        rw [← ih1]
      | some i =>
        rw [hf] at ih1
        simp only [Option.map_some']
        simp only [List.map_cons, List.filter_cons, hq, bne_iff_ne, ne_eq, not_false_eq_true,
          decide_True, ↓reduceIte, List.eraseIdx_cons_succ]
        simp only at ih1
        rw [← ih1]

theorem findIndex_congr {α : Type} (p q : α → Bool) (L : List α)
    (h : ∀ x ∈ L, p x = q x) : findIndex p L = findIndex q L := by
  induction L with
  | nil => rfl
  | cons x xs ih =>
    have hx : p x = q x := h x (List.mem_cons_self x xs)
    have ih1 := ih (fun y hy => h y (List.mem_cons_of_mem x hy))
    simp [findIndex, hx, ih1]

/-- C4 as it is written fails: the id of the stored pin 10 ends in the digit `a`; asked with
that digit in upper case, the lookup finds the pin, no `_id.toString()` equals the text of
the request, nothing is taken out, and the pin itself is in the answer. -/
theorem category_keeps_pin_on_other_spelling :
    hexCodec.cast "00000000000000000000000A" = some letterPin._id ∧
    letterPin ∈ letterStore.pins ∧ (letterStore.pins.map (·._id)).Nodup ∧
    (category hexCodec noFaults "00000000000000000000000A" letterStore).response
      = some ⟨200, .pins [populatePin letterStore letterPin,
          populatePin letterStore relatedPin]⟩ := by
  decide

/-- C4, amended: for a stored pin P, pin ids being distinct and the request carrying the id
of P as `_id.toString()` writes it, the Category handler answers 200 with the stored pins Q,
in store order and populated, whose id is not the id of P and which have a tag that is a
tag of P other than `Explorepage`. The driver is any one whose cast reads back what
`toString` writes for the stored ids. -/
theorem category_returns_related_pins (codec : IdCodec) (s : Store) (P : Pin)
    (hP : P ∈ s.pins) (hid : (s.pins.map (·._id)).Nodup)
    (hround : ∀ Q ∈ s.pins, codec.cast (codec.toString Q._id) = some Q._id) :
    (category codec noFaults (codec.toString P._id) s).response = some ⟨200, .pins
      ((s.pins.filter (fun Q => decide (Q._id ≠ P._id ∧
          ∃ t ∈ Q.tags, t ∈ P.tags ∧ t ≠ "Explorepage"))).map (populatePin s))⟩ := by
  have hfind : PinModel.findById s P._id = some P := pin_find_of_mem_nodup hP hid
  have hsub : ((findTagsIn s (P.tags.filter (fun tag => tag != "Explorepage"))).map
      (·._id)).Nodup :=
    List.Nodup.sublist (List.Sublist.map _ (List.filter_sublist _)) hid
  have hsplice := splice_found_eq_filter s P._id
    (findTagsIn s (P.tags.filter (fun tag => tag != "Explorepage"))) hsub
  have hcongr : findIndex (fun pin : PopulatedPin =>
        codec.toString pin.pin._id == codec.toString P._id)
      ((findTagsIn s (P.tags.filter (fun tag => tag != "Explorepage"))).map (populatePin s))
      = findIndex (fun pp : PopulatedPin => pp.pin._id == P._id)
      ((findTagsIn s (P.tags.filter (fun tag => tag != "Explorepage"))).map (populatePin s))
      := by
    apply findIndex_congr
    intro x hx
    obtain ⟨Q, hQ, rfl⟩ := List.mem_map.mp hx
    have hQs : Q ∈ s.pins := (List.mem_filter.mp hQ).1
    rw [Bool.eq_iff_iff]
    simp only [beq_iff_eq, populatePin]
    constructor
    · intro h
      have h1 := hround Q hQs
      rw [h, hround P hP] at h1
      exact (Option.some.inj h1).symm
    · intro h
      rw [h]
  simp only [category, noFaults, hround P hP, hfind, hcongr]
  rw [hsplice]
  congr 4
  simp only [findTagsIn, List.filter_filter]
  apply List.filter_congr
  intro Q _
  rw [Bool.eq_iff_iff]
  simp only [Bool.and_eq_true, bne_iff_ne, ne_eq, List.any_eq_true, List.contains_iff_exists_mem_beq,
    List.mem_filter, beq_iff_eq, decide_eq_true_eq]
  constructor
  · rintro ⟨h1, t, ht, t1, ⟨ht1, hne⟩, he⟩
    subst he
    exact ⟨h1, t, ht, ht1, by simpa using hne⟩
  · rintro ⟨h1, t, ht, ht1, hne⟩
    exact ⟨h1, t, ht, t, ⟨ht1, by simpa using hne⟩, rfl⟩

theorem category_returns_related_pins_witness :
    samplePin ∈ feedStore.pins ∧ (feedStore.pins.map (·._id)).Nodup ∧
    (∀ Q ∈ feedStore.pins, hexCodec.cast (hexCodec.toString Q._id) = some Q._id) ∧
    hexCodec.toString samplePin._id = "000000000000000000000007" ∧
    (category hexCodec noFaults "000000000000000000000007" feedStore).response =
      some ⟨200, .pins [populatePin feedStore relatedPin]⟩ :=
  ⟨by decide, by decide, by decide, by decide,
    (category_returns_related_pins hexCodec feedStore samplePin (by decide) (by decide)
      (by decide)).trans (by decide)⟩

/-! ## Search -/

theorem parseAtoms_plain (k : List Char) (hk : ∀ c ∈ k, c ∉ syntaxCharacters) :
    parseAtoms k = some (k.map Atom.char) := by
  induction k with
  | nil => rfl
  | cons c cs ih =>
    have hc : c ∉ syntaxCharacters := hk c (List.mem_cons_self c cs)
    have hdot : c ≠ '.' := by
      intro h
      apply hc
      rw [h]
      decide
    have ih1 := ih (fun d hd => hk d (List.mem_cons_of_mem c hd))
    simp [parseAtoms, hdot, hc, ih1]

theorem matchHere_plain (canon : Char → Char) (k text : List Char) :
    matchHere canon (k.map Atom.char) text = true ↔
      ∃ post : List Char, text.map canon = k.map canon ++ post := by
  induction k generalizing text with
  | nil => simp [matchHere]
  | cons c cs ih =>
    cases text with
    | nil => simp [matchHere]
    | cons d ds =>
      simp only [List.map_cons, matchHere, atomMatches, Bool.and_eq_true, beq_iff_eq, ih,
        List.cons_append, List.cons.injEq]
      constructor
      · rintro ⟨h, post, hp⟩
        exact ⟨post, h.symm, hp⟩
      · rintro ⟨post, h, hp⟩
        exact ⟨h.symm, post, hp⟩

theorem testAtoms_plain (canon : Char → Char) (k text : List Char) :
    testAtoms canon (k.map Atom.char) text = true ↔ containsIgnoringCase canon text k := by
  unfold containsIgnoringCase
  induction text with
  | nil =>
    simp only [testAtoms, matchHere_plain, List.map_nil]
    constructor
    · rintro ⟨post, hp⟩
      exact ⟨[], post, by simpa using hp⟩
    · rintro ⟨pre, post, hp⟩
      have h1 : pre ++ List.map canon k = [] := (List.append_eq_nil.mp hp.symm).1
      have h2 : List.map canon k = [] := (List.append_eq_nil.mp h1).2
      exact ⟨[], by simp [h2]⟩
  | cons d ds ih =>
    simp only [testAtoms, Bool.or_eq_true, matchHere_plain, ih]
    constructor
    · rintro (⟨post, hp⟩ | ⟨pre, post, hp⟩)
      · exact ⟨[], post, by simpa using hp⟩
      · exact ⟨canon d :: pre, post, by simp [hp]⟩
    · rintro ⟨pre, post, hp⟩
      cases pre with
      | nil => exact Or.inl ⟨post, by simpa using hp⟩
      | cons x pre1 =>
        right
        simp only [List.map_cons, List.cons_append, List.cons.injEq] at hp
        exact ⟨pre1, post, hp.2⟩

/-- C7 as it is written fails: the keyword `c.t` is read as a pattern whose dot stands for
any character, so the pin titled `cat` is returned, and `cat` does not contain `c.t`, the
pin has no description and no tag `c.t`. -/
theorem search_reads_keyword_as_pattern :
    (search asciiEngine noFaults "c.t" sampleStore).response
      = some ⟨200, .pins [populatePin sampleStore samplePin]⟩ ∧
    ¬ searchHit asciiEngine.canonicalize "c.t" samplePin := by
  refine ⟨by decide, ?_⟩
  rintro (h | ⟨d, hd, _⟩ | h)
  · rw [← testAtoms_plain] at h
    revert h
    decide
  · simp [samplePin] at hd
  · revert h
    decide

/-- C7, amended: for a keyword with no syntax character of regular expressions, the Search
handler answers 200 with the stored pins, in store order and populated, whose title contains
the keyword ignoring case, or whose description does, or whose tag list has an element equal
to the keyword. -/
theorem search_plain_keyword (eng : RegExpEngine) (kw : String) (s : Store)
    (hk : ∀ c ∈ kw.toList, c ∉ syntaxCharacters) :
    ∃ hit : Pin → Bool, (∀ p, hit p = true ↔ searchHit eng.canonicalize kw p) ∧
      (search eng noFaults kw s).response
        = some ⟨200, .pins ((s.pins.filter hit).map (populatePin s))⟩ := by
  refine ⟨fun p =>
    testAtoms eng.canonicalize (kw.toList.map Atom.char) p.title.toList ||
      (match p.description with
        | some d => testAtoms eng.canonicalize (kw.toList.map Atom.char) d.toList
        | none => false) || p.tags.contains kw, ?_, ?_⟩
  · intro p
    unfold searchHit
    cases hd : p.description with
    | none => simp [hd, testAtoms_plain]
    | some d => simp [hd, testAtoms_plain, or_assoc]
  · have hp := parseAtoms_plain kw.toList hk
    simp only [search, compileRegExp, hp, noFaults]

theorem search_plain_keyword_witness :
    (∀ c ∈ "dog".toList, c ∉ syntaxCharacters) ∧
    ∃ hit : Pin → Bool, (∀ p, hit p = true ↔ searchHit asciiEngine.canonicalize "dog" p) ∧
      (search asciiEngine noFaults "dog" feedStore).response
        = some ⟨200, .pins ((feedStore.pins.filter hit).map (populatePin feedStore))⟩ :=
  ⟨by decide, search_plain_keyword asciiEngine "dog" feedStore (by decide)⟩

/-! ## Login and register -/

/-- C8 as it is written fails: two stored users have the email, the password verifies
against the hash of the second one, and the request passes validation, yet the handler
answers 400 with the message of a wrong password: it checks the password against the first
user with the email only. -/
theorem login_checks_first_user_only :
    (∃ u ∈ twinStore.users, u.email = "ann@example.com" ∧
      sampleEnv.compare "pw2" u.password = true) ∧
    (sampleEnv.validateLoginInputs "ann@example.com" "pw2").valid = true ∧
    (login sampleEnv noFaults "ann@example.com" "pw2" twinStore).response
      = some ⟨400, .object [("errors", .fields
          [("password", "The entered password is incorrect")])]⟩ := by
  decide

/-- C8, amended: for a login request that passes validation, no call rejecting, the handler
answers 200 exactly when the lookup by email finds a user and the password verifies against
the hash of the user it found; it answers 400 with a message under `errors.email` when the
lookup finds none (which is when no stored user has the email), and 400 with a message under
`errors.password` when the password does not verify against the user it found; a body sent
with 200 has the keys `ID`, `email` and `Name` and no other. -/
theorem login_answers (env : Env) (email password : String) (s : Store)
    (hv : (env.validateLoginInputs email password).valid = true) :
    ((∃ r, (login env noFaults email password s).response = some r ∧ r.status = 200) ↔
      ∃ u, UserModel.findOne s email = some u ∧ env.compare password u.password = true) ∧
    (UserModel.findOne s email = none ↔ ∀ u ∈ s.users, u.email ≠ email) ∧
    (UserModel.findOne s email = none →
      (login env noFaults email password s).response = some ⟨400, .object [("errors", .fields
        [("email", "The email you entered does not belong to any account.")])]⟩) ∧
    (∀ u, UserModel.findOne s email = some u → env.compare password u.password = false →
      (login env noFaults email password s).response = some ⟨400, .object [("errors", .fields
        [("password", "The entered password is incorrect")])]⟩) ∧
    (∀ r, (login env noFaults email password s).response = some r → r.status = 200 →
      ∃ u, UserModel.findOne s email = some u ∧
        r.body = .object [("ID", .oid u._id), ("email", .str email), ("Name", .str u.fname)])
    := by
  refine ⟨?_, ?_, ?_, ?_, ?_⟩
  · cases hf : UserModel.findOne s email with
    | none => simp [login, hv, noFaults, hf]
    | some u =>
      cases hc : env.compare password u.password <;> simp [login, hv, noFaults, hf, hc]
  · simp [UserModel.findOne]
  · intro hf
    simp [login, hv, noFaults, hf]
  · intro u hf hc
    simp [login, hv, noFaults, hf, hc]
  · intro r hr h200
    cases hf : UserModel.findOne s email with
    | none =>
      simp [login, hv, noFaults, hf] at hr
      rw [← hr] at h200
      simp at h200
    | some u =>
      cases hc : env.compare password u.password with
      | false =>
        simp [login, hv, noFaults, hf, hc] at hr
        rw [← hr] at h200
        simp at h200
      | true =>
        simp [login, hv, noFaults, hf, hc] at hr
        exact ⟨u, rfl, by rw [← hr]⟩

theorem login_answers_witness :
    (sampleEnv.validateLoginInputs "ann@example.com" "pw1").valid = true ∧
    ((∃ r, (login sampleEnv noFaults "ann@example.com" "pw1" twinStore).response = some r ∧
        r.status = 200) ↔
      ∃ u, UserModel.findOne twinStore "ann@example.com" = some u ∧
        sampleEnv.compare "pw1" u.password = true) ∧
    (login sampleEnv noFaults "ann@example.com" "pw1" twinStore).response
      = some ⟨200, .object [("ID", .oid 1), ("email", .str "ann@example.com"),
          ("Name", .str "ann")]⟩ :=
  ⟨rfl, (login_answers sampleEnv "ann@example.com" "pw1" twinStore rfl).1, by decide⟩

/-- C9: when a stored user has the email of a registration request that passes validation,
the handler answers 400 with a message under `errors.email` (the lookup going through), and
whatever the outcome of its calls it leaves the store as it is and passes no password to the
hashing function. -/
theorem register_existing_email (env : Env) (newId : ObjectId)
    (fname email password dob : String) (s : Store)
    (hv : (env.validateRegisterInputs fname email password dob).valid = true)
    (hex : ∃ u ∈ s.users, u.email = email) :
    (register env noFaults newId fname email password dob s).response
      = some ⟨400, .object [("errors", .fields
          [("email", "Email address already exists!!! Proceed to Login.")])]⟩ ∧
    ∀ faults : Faults,
      (register env faults newId fname email password dob s).store = s ∧
      (register env faults newId fname email password dob s).hashed = [] := by
  have hfind : ∃ u, UserModel.findOne s email = some u := by
    cases hf : UserModel.findOne s email with
    | some u => exact ⟨u, rfl⟩
    | none =>
      obtain ⟨u, hu, he⟩ := hex
      simp [UserModel.findOne] at hf
      exact absurd he (hf u hu)
  obtain ⟨u, hu⟩ := hfind
  refine ⟨by simp [register, hv, noFaults, hu], ?_⟩
  intro faults
  unfold register
  cases h0 : faults 0 with
  | none => simp [hv, hu]
  | some e =>
    by_cases hc : e.code = some 11000 <;> simp [hv, registerCatch, hc]

/-- A registration with an email no stored user has, every call going through: the handler
answers 200, passes the password to the hashing function and stores the new user with the
hash. -/
theorem register_new_email_sample :
    (register sampleEnv noFaults 3 "eve" "eve@example.com" "pw3" "2001-02-03" sampleStore)
      = { response := some ⟨200, .object
            [("message", .str "User registered successfully! Proceed to Login.")]⟩
          store := { sampleStore with users := [sampleUser,
            { _id := 3, fname := "eve", email := "eve@example.com", password := "hash:pw3"
              dob := "2001-02-03", savedPins := [] }] }
          hashed := ["pw3"] } := by
  decide

theorem register_existing_email_witness :
    (sampleEnv.validateRegisterInputs "eve" "ann@example.com" "pw3" "2001-02-03").valid = true ∧
    (∃ u ∈ sampleStore.users, u.email = "ann@example.com") ∧
    (register sampleEnv noFaults 3 "eve" "ann@example.com" "pw3" "2001-02-03"
      sampleStore).response
      = some ⟨400, .object [("errors", .fields
          [("email", "Email address already exists!!! Proceed to Login.")])]⟩ ∧
    ∀ faults : Faults,
      (register sampleEnv faults 3 "eve" "ann@example.com" "pw3" "2001-02-03"
        sampleStore).store = sampleStore ∧
      (register sampleEnv faults 3 "eve" "ann@example.com" "pw3" "2001-02-03"
        sampleStore).hashed = [] :=
  ⟨rfl, by decide,
    register_existing_email sampleEnv 3 "eve" "ann@example.com" "pw3" "2001-02-03"
      sampleStore rfl (by decide)⟩

end Pinterest
